import Mathlib

/-!
Verification of the Forge patch/change-tracking engine.

This file shallowly embeds the core of the Forge build tool
(src/core/patches.ts, src/core/git.ts, src/commands/status.ts,
src/commands/export-all.ts) in Lean 4 and proves the testable
properties of its specification.

Modelling conventions:
* The external `git` binary is an abstract oracle (`GitExec`): a function
  from a command-line argument vector and a world state to an exit code,
  captured output streams, and a successor world.  The TypeScript control
  flow around the oracle is translated verbatim.
* JavaScript strings are Lean `String`s; the character-level JS operations
  (`split`, `trim`, `slice`, `endsWith`, regexes) are modelled on the
  underlying `List Char`.
* JS numbers holding patch order values are modelled as `Option Nat`
  (`none` stands for `Infinity`, the order of an unprefixed patch file).
  `parseInt` is modelled exactly over `Nat`; this is faithful to the
  IEEE-754 semantics for every prefix below 2^53, which covers the
  three-digit naming scheme the tool itself generates.
* `Array.prototype.sort` (stable since ES2019) with the consistent
  comparator `(a, b) => a.order - b.order` is modelled by a stable
  insertion sort over the induced total preorder.
-/

namespace Forge

/-- Captured result of spawning an external process (`exec` in
src/utils/process.ts): exit code plus captured stdout/stderr. -/
structure ExecResult where
  exitCode : Int
  stdout : String
  stderr : String
deriving Repr, DecidableEq

/-- Abstract oracle for the external `git` binary.  `gitExists` models
`executableExists('git')`; `run args w` models
`exec('git', args, { cwd })` from world `w`, returning the captured
result and the successor world (the working tree, file system, or an
instrumentation trace, depending on the instantiation). -/
structure GitExec (W : Type) where
  gitExists : Bool
  run : List String → W → ExecResult × W

/-- Errors thrown by the git adapter that the apply engine can observe
(`GitNotFoundError` and `PatchApplyError` from src/errors/git.ts).
`patchApply` carries the patch path and the tool's stderr text, which the
TypeScript constructor stores in the wrapped `cause` error. -/
inductive ApplyErr where
  | gitNotFound : ApplyErr
  | patchApply (patchPath : String) (stderr : String) : ApplyErr
deriving Repr, DecidableEq

/-- `Error.message` of the corresponding TypeScript error object:
`GitNotFoundError` fixes its message, `PatchApplyError` uses
`Failed to apply patch: ${patchPath}`. -/
def ApplyErr.message : ApplyErr → String
  | .gitNotFound => "Git is not installed or not found in PATH"
  | .patchApply p _ => "Failed to apply patch: " ++ p

/-- One entry of a directory listing (`readdir` with `withFileTypes`). -/
structure DirEntry where
  name : String
  isFile : Bool
deriving Repr, DecidableEq

/-- `PatchInfo` from src/types/commands.ts.  `order = none` models the
JS value `Infinity` assigned to filenames without a numeric prefix. -/
structure PatchInfo where
  path : String
  filename : String
  order : Option Nat
deriving Repr, DecidableEq

/-- `PatchResult` from src/types/commands.ts. -/
structure PatchResult where
  patch : PatchInfo
  success : Bool
  error : Option String
deriving Repr, DecidableEq

/-- One parsed `git status --porcelain` entry
(`getStatusWithCodes` in src/core/git.ts). -/
structure StatusEntry where
  status : String
  file : String
deriving Repr, DecidableEq

/-- JS `String.prototype.split('\n')` on the character list: always
returns at least one (possibly empty) segment. -/
def jsSplitNl : List Char → List (List Char)
  | [] => [[]]
  | c :: rest =>
    if c = '\n' then [] :: jsSplitNl rest
    else
      match jsSplitNl rest with
      | [] => [[c]]
      | l :: ls => (c :: l) :: ls

/-- JS `String.prototype.trim()`: strip whitespace from both ends.
(`Char.isWhitespace` covers space, tab, CR, LF — the characters that can
occur in the tool output being trimmed.) -/
def jsTrim (l : List Char) : List Char :=
  ((l.dropWhile Char.isWhitespace).reverse.dropWhile Char.isWhitespace).reverse

/-- `split('\n')` lifted back to `String`. -/
def jsSplitNlStr (content : String) : List String :=
  (jsSplitNl content.data).map (fun l => String.mk l)

/-- `Array.prototype.join('\n')`. -/
def joinNl (l : List String) : String :=
  String.intercalate "\n" l

/-- Node `path.join(dir, name)` for a plain file name inside a directory
(the only shape the engine uses). -/
def joinPath (dir name : String) : String :=
  dir ++ "/" ++ name

/-- Node `path.extname` on a directory-entry name (no separators): the
suffix starting at the last dot, except that a dot in the first position
(a hidden file such as `.patch`) yields no extension.  (Node additionally
maps the name `..` to the empty extension; the model returns `.` there,
which is equally rejected by the `.patch` comparison in `discoverPatches`.) -/
def extname (name : List Char) : List Char :=
  let pre := name.reverse.dropWhile (fun c => c ≠ '.')
  if pre.length ≤ 1 then []
  else '.' :: (name.reverse.takeWhile (fun c => c ≠ '.')).reverse

/-- Whether a directory entry survives the `discoverPatches` filter:
`entry.isFile() && extname(entry.name) === '.patch'`. -/
def entryKept (e : DirEntry) : Bool :=
  e.isFile && (extname e.name.data = ".patch".data : Bool)

/-- Numeric value of a digit run, as computed by `parseInt(digits, 10)`
(exact for every run the tool produces; see the header note on 2^53). -/
def digitsVal (ds : List Char) : Nat :=
  ds.foldl (fun n c => 10 * n + (c.toNat - 48)) 0

/-- `extractOrder` from src/core/patches.ts: the regex `^(\d+)-` matches
iff a non-empty maximal digit run at the start is immediately followed by
a hyphen; the match parses to the order, otherwise the order is
`Infinity` (`none`). -/
def extractOrder (filename : String) : Option Nat :=
  let ds := filename.data.takeWhile Char.isDigit
  if ds.isEmpty then none
  else
    match filename.data.drop ds.length with
    | '-' :: _ => some (digitsVal ds)
    | _ => none

/-- Comparator of `discoverPatches` as a boolean total preorder:
`orderLe a b` holds iff the JS comparator `a - b` (with
`Infinity - Infinity` treated as `+0` per the ES sort specification)
is non-positive. -/
def orderLe : Option Nat → Option Nat → Bool
  | some a, some b => a ≤ b
  | some _, none => true
  | none, some _ => false
  | none, none => true

/-- Insert into a sorted list, before the first element not strictly
smaller: the insertion step of a stable sort. -/
def insertLe {α : Type} (le : α → α → Bool) (a : α) : List α → List α
  | [] => [a]
  | b :: bs => if le a b then a :: b :: bs else b :: insertLe le a bs

/-- Stable insertion sort, the model of `Array.prototype.sort` with a
consistent comparator (stable since ES2019). -/
def stableSortBy {α : Type} (le : α → α → Bool) : List α → List α
  | [] => []
  | a :: rest => insertLe le a (stableSortBy le rest)

/-- `discoverPatches` from src/core/patches.ts.  The file system is
presented as `fs`: `none` when `pathExists(patchesDir)` is false, else
the `readdir` listing in enumeration order. -/
def discoverPatches (patchesDir : String) (fs : Option (List DirEntry)) : List PatchInfo :=
  match fs with
  | none => []
  | some entries =>
    let patches := (entries.filter entryKept).map (fun e =>
      { path := joinPath patchesDir e.name
        filename := e.name
        order := extractOrder e.name : PatchInfo })
    stableSortBy (fun a b => orderLe a.order b.order) patches

/-- `applyPatch` from src/core/git.ts: validate with
`git apply --check`, then run `git apply`; a non-zero exit of either
raises `PatchApplyError(patchPath, stderr)`.  The error (if any) is
returned together with the world left behind by the executed commands. -/
def applyPatch {W : Type} (E : GitExec W) (patchPath : String) (w : W) : Option ApplyErr × W :=
  if E.gitExists then
    let rw := E.run ["apply", "--check", patchPath] w
    if rw.1.exitCode ≠ 0 then (some (ApplyErr.patchApply patchPath rw.1.stderr), rw.2)
    else
      let rw2 := E.run ["apply", patchPath] rw.2
      if rw2.1.exitCode ≠ 0 then (some (ApplyErr.patchApply patchPath rw2.1.stderr), rw2.2)
      else (none, rw2.2)
  else (some ApplyErr.gitNotFound, w)

/-- `applyPatchIdempotent` from src/core/git.ts: run
`git apply --reverse` without inspecting its result, then `applyPatch`
forward. -/
def applyPatchIdempotent {W : Type} (E : GitExec W) (patchPath : String) (w : W) :
    Option ApplyErr × W :=
  if E.gitExists then
    applyPatch E patchPath (E.run ["apply", "--reverse", patchPath] w).2
  else (some ApplyErr.gitNotFound, w)

/-- `applySinglePatch` from src/core/patches.ts: catch any error from
the idempotent apply and record its `message`. -/
def applySinglePatch {W : Type} (E : GitExec W) (patch : PatchInfo) (w : W) : PatchResult × W :=
  match applyPatchIdempotent E patch.path w with
  | (none, w1) => ({ patch := patch, success := true, error := none }, w1)
  | (some e, w1) => ({ patch := patch, success := false, error := some e.message }, w1)

/-- The `for..of` loop of `applyPatches`: push each result and `break`
on the first failure. -/
def applyPatchesFrom {W : Type} (E : GitExec W) : List PatchInfo → W → List PatchResult × W
  | [], w => ([], w)
  | p :: rest, w =>
    if (applySinglePatch E p w).1.success then
      ((applySinglePatch E p w).1 ::
        (applyPatchesFrom E rest (applySinglePatch E p w).2).1,
       (applyPatchesFrom E rest (applySinglePatch E p w).2).2)
    else ([(applySinglePatch E p w).1], (applySinglePatch E p w).2)

/-- `applyPatches` from src/core/patches.ts: discover, then apply in
order, halting at the first failure. -/
def applyPatches {W : Type} (E : GitExec W) (patchesDir : String)
    (fs : Option (List DirEntry)) (w : W) : List PatchResult × W :=
  applyPatchesFrom E (discoverPatches patchesDir fs) w

/-- `countPatches` from src/core/patches.ts. -/
def countPatches (patchesDir : String) (fs : Option (List DirEntry)) : Nat :=
  (discoverPatches patchesDir fs).length

/-- `Math.max(...orders)` over the (non-empty) list of patch orders:
`Infinity` (`none`) absorbs everything; all orders are naturals, so the
accumulator starts at `0`. -/
def jsMaxOrder (l : List (Option Nat)) : Option Nat :=
  if l.any Option.isNone then none
  else some (l.foldl (fun a o => Nat.max a (o.getD 0)) 0)

/-- `String(n).padStart(3, '0')`. -/
def padStart3 (n : Nat) : String :=
  String.mk (List.replicate (3 - (toString n).length) '0') ++ toString n

/-- `getNextPatchNumber` from src/core/patches.ts: `"001"` when no
patches exist; otherwise `Math.max` of all orders, mapping `Infinity`
to `1` and anything else to `max + 1`, zero-padded. -/
def getNextPatchNumber (patchesDir : String) (fs : Option (List DirEntry)) : String :=
  let patches := discoverPatches patchesDir fs
  if patches.isEmpty then "001"
  else
    match jsMaxOrder (patches.map PatchInfo.order) with
    | none => padStart3 1
    | some m => padStart3 (m + 1)

/-- JS `content.endsWith('\n')`. -/
def hasTrailingNewline (content : String) : Bool :=
  content.data.getLast? = some '\n'

/-- `lineCount` computed by `generateNewFileDiff`: the number of
segments of `split('\n')`, minus one when the content ends with a
newline (the final empty segment). -/
def jsLineCount (content : String) : Nat :=
  if hasTrailingNewline content then (jsSplitNlStr content).length - 1
  else (jsSplitNlStr content).length

/-- The hunk header emitted for a synthesized new-file diff. -/
def hunkHeader (n : Nat) : String :=
  "@@ -0,0 +1," ++ toString n ++ " @@"

/-- The line array built by `generateNewFileDiff` (src/core/git.ts)
before joining: git-style envelope, one `+` line per counted content
line, and the no-newline marker when the content lacks a trailing
newline and at least one line was counted. -/
def newFileDiffLines (filePath content : String) : List String :=
  ["diff --git a/" ++ filePath ++ " b/" ++ filePath,
   "new file mode 100644",
   "--- /dev/null",
   "+++ b/" ++ filePath,
   hunkHeader (jsLineCount content)]
  ++ ((jsSplitNlStr content).take (jsLineCount content)).map (fun l => "+" ++ l)
  ++ (if !hasTrailingNewline content && decide (0 < jsLineCount content)
      then ["\\ No newline at end of file"] else [])

/-- `generateNewFileDiff` from src/core/git.ts.  The file system read
(`readText(join(repoDir, filePath))`) is factored out: `content` is the
file's text. -/
def generateNewFileDiff (filePath content : String) : String :=
  joinNl (newFileDiffLines filePath content)

/-- Diff synthesis for a new file as the specification words it
(refinement target): the same envelope with the hunk count taken from
the split lines, every line prefixed `+`, and the no-newline marker
present exactly when the content does not end with a newline. -/
def specNewFileDiff (filePath content : String) : String :=
  joinNl (["diff --git a/" ++ filePath ++ " b/" ++ filePath,
           "new file mode 100644",
           "--- /dev/null",
           "+++ b/" ++ filePath,
           hunkHeader (jsLineCount content)]
    ++ ((jsSplitNlStr content).take (jsLineCount content)).map (fun l => "+" ++ l)
    ++ (if hasTrailingNewline content then [] else ["\\ No newline at end of file"]))

/-- `getUntrackedFiles` from src/core/git.ts: parse the output of
`git ls-files --others --exclude-standard` into its non-blank lines. -/
def getUntrackedFiles {W : Type} (E : GitExec W) (w : W) : Option (List String) × W :=
  if E.gitExists then
    let rw := E.run ["ls-files", "--others", "--exclude-standard"] w
    (some ((jsSplitNlStr rw.1.stdout).filter (fun l => !(jsTrim l.data).isEmpty)), rw.2)
  else (none, w)

/-- `getAllDiff` from src/core/git.ts: the tracked diff against HEAD,
followed by a synthesized diff for every untracked file, dropping
blank fragments and joining with a newline.  `fsRead` models
`readText`; the first component is `none` when `ensureGit` throws. -/
def getAllDiff {W : Type} (E : GitExec W) (fsRead : String → String) (repoDir : String)
    (w : W) : Option String × W :=
  if E.gitExists then
    let rw := E.run ["diff", "HEAD"] w
    match getUntrackedFiles E rw.2 with
    | (none, w2) => (none, w2)
    | (some files, w2) =>
      let untrackedDiffs := files.map (fun f => generateNewFileDiff f (fsRead (joinPath repoDir f)))
      (some (joinNl ((rw.1.stdout :: untrackedDiffs).filter
        (fun d => !(jsTrim d.data).isEmpty))), w2)
  else (none, w)

/-- The bulk diff as the specification words it (refinement target):
tracked diff first, then one synthesized new-file diff per untracked
file in order, blank or whitespace-only fragments omitted, fragments
joined by a single newline. -/
def specBulkDiff (tracked : String) (untracked : List String) (contentOf : String → String) :
    String :=
  joinNl ((tracked :: untracked.map (fun f => generateNewFileDiff f (contentOf f))).filter
    (fun d => !(jsTrim d.data).isEmpty))

/-- `hasChanges` from src/core/git.ts: whether
`git status --porcelain` printed anything after trimming. -/
def hasChanges {W : Type} (E : GitExec W) (w : W) : Option Bool × W :=
  if E.gitExists then
    let rw := E.run ["status", "--porcelain"] w
    (some (!(jsTrim rw.1.stdout.data).isEmpty), rw.2)
  else (none, w)

/-- Porcelain parsing of `getStatusWithCodes` (src/core/git.ts): keep
non-blank lines, `status` is the first two characters trimmed, `file`
is everything after the third character. -/
def parsePorcelain (out : String) : List StatusEntry :=
  ((jsSplitNl out.data).filter (fun l => !(jsTrim l).isEmpty)).map (fun l =>
    { status := String.mk (jsTrim (l.take 2)), file := String.mk (l.drop 3) })

/-- `getStatusWithCodes` from src/core/git.ts. -/
def getStatusWithCodes {W : Type} (E : GitExec W) (w : W) : Option (List StatusEntry) × W :=
  if E.gitExists then
    let rw := E.run ["status", "--porcelain"] w
    (some (parsePorcelain rw.1.stdout), rw.2)
  else (none, w)

/-- `getStatusDescription` from src/commands/status.ts: the
`STATUS_DESCRIPTIONS` record lookup with the `'changed'` fallback. -/
def getStatusDescription (code : String) : String :=
  if code = "M" then "modified"
  else if code = "A" then "added"
  else if code = "D" then "deleted"
  else if code = "R" then "renamed"
  else if code = "C" then "copied"
  else if code = "U" then "unmerged"
  else if code = "?" then "untracked"
  else if code = "!" then "ignored"
  else "changed"

/-- `sanitizeFilename` from src/commands/export-all.ts: lower-case,
collapse every run of non-alphanumerics to one hyphen, strip hyphens at
both ends, truncate to 50 characters. -/
def isAlnumLower (c : Char) : Bool :=
  c.isDigit || (decide ('a' ≤ c) && decide (c ≤ 'z'))

/-- Replace each maximal run of non-alphanumeric characters by a single
hyphen (the `replace(/[^a-z0-9]+/g, '-')` step); the flag records
whether the previous character was part of such a run. -/
def squashRuns : Bool → List Char → List Char
  | _, [] => []
  | inRun, c :: rest =>
    if isAlnumLower c then c :: squashRuns false rest
    else if inRun then squashRuns true rest
    else '-' :: squashRuns true rest

def sanitizeFilename (name : String) : String :=
  let collapsed := squashRuns false (name.data.map Char.toLower)
  let trimmed := ((collapsed.dropWhile (fun c => c = '-')).reverse.dropWhile
    (fun c => c = '-')).reverse
  String.mk (trimmed.take 50)

/-- The read-only environment an `export-all` run observes: existence
checks, the captured output of the three git queries, the text of any
file `readText` touches, the patches-directory listing, and the name the
interactive prompt would return (`none` models cancellation). -/
structure CliWorld where
  gitExists : Bool
  engineExists : Bool
  gitDirExists : Bool
  statusOut : String
  diffHeadOut : String
  lsFilesOut : String
  readFile : String → String
  patchesDirEntries : Option (List DirEntry)
  promptName : Option String

/-- The git oracle induced by a `CliWorld`: the three queries the
export path issues return the recorded outputs and leave the world
unchanged (they are read-only). -/
def cliExec (w : CliWorld) : GitExec Unit where
  gitExists := w.gitExists
  run := fun args u =>
    (if args = ["status", "--porcelain"] then { exitCode := 0, stdout := w.statusOut, stderr := "" }
     else if args = ["diff", "HEAD"] then { exitCode := 0, stdout := w.diffHeadOut, stderr := "" }
     else if args = ["ls-files", "--others", "--exclude-standard"] then
       { exitCode := 0, stdout := w.lsFilesOut, stderr := "" }
     else { exitCode := 0, stdout := "", stderr := "" }, u)

/-- Observable outcome of `exportAllCommand`. -/
inductive ExportOutcome where
  | error (message : String) : ExportOutcome
  | nothingToExport : ExportOutcome
  | cancelled : ExportOutcome
  | exported (filename : String) (content : String) : ExportOutcome
deriving Repr, DecidableEq

/-- The bulk diff the export path computes (total because the
`gitExists` failure collapses to the empty diff only after the earlier
`hasChanges` call has already thrown). -/
def cliAllDiff (engineDir : String) (w : CliWorld) : String :=
  (getAllDiff (cliExec w) w.readFile engineDir ()).1.getD ""

/-- `exportAllCommand` from src/commands/export-all.ts, sequenced
exactly as the source: engine-existence check, repository check,
`hasChanges` gate, `getAllDiff` gate, name resolution (the option is
used unless empty, otherwise the prompt), then the patch file write. -/
def exportAllCommand (engineDir patchesDir : String) (nameOpt : Option String)
    (w : CliWorld) : ExportOutcome :=
  if !w.engineExists then
    .error "Firefox source not found. Run \"./forge/forge download\" first."
  else if !w.gitDirExists then
    .error "Engine directory is not a git repository. Run \"./forge/forge download\" to initialize."
  else
    match hasChanges (cliExec w) () with
    | (none, _) => .error ApplyErr.gitNotFound.message
    | (some false, _) => .nothingToExport
    | (some true, _) =>
      let diff := cliAllDiff engineDir w
      if (jsTrim diff.data).isEmpty then .nothingToExport
      else
        let patchName := match nameOpt with
          | some s => if s = "" then w.promptName else some s
          | none => w.promptName
        match patchName with
        | none => .cancelled
        | some n =>
          let patchNumber := getNextPatchNumber patchesDir w.patchesDirEntries
          .exported (patchNumber ++ "-" ++ sanitizeFilename n ++ ".patch") diff

/-- Semantic model of `git apply` for a fixed repository: for every
patch path `p`, `F p` is the forward application (partial, atomic — a
failed apply leaves the tree untouched) and `R p` the reverse
application.  `--check` is a dry run of the forward direction. -/
def gitApplyExec {T : Type} (F R : String → T → Option T) : GitExec T where
  gitExists := true
  run := fun args t =>
    match args with
    | ["apply", "--check", p] =>
      (if (F p t).isSome then { exitCode := 0, stdout := "", stderr := "" }
       else { exitCode := 1, stdout := "", stderr := "patch does not apply" }, t)
    | ["apply", "--reverse", p] =>
      match R p t with
      | some t2 => ({ exitCode := 0, stdout := "", stderr := "" }, t2)
      | none => ({ exitCode := 1, stdout := "", stderr := "patch does not apply" }, t)
    | ["apply", p] =>
      match F p t with
      | some t2 => ({ exitCode := 0, stdout := "", stderr := "" }, t2)
      | none => ({ exitCode := 1, stdout := "", stderr := "patch does not apply" }, t)
    | _ => ({ exitCode := 0, stdout := "", stderr := "" }, t)

/-- Instrumentation oracle: every invocation is appended to the trace
world; `failing` selects the commands that exit non-zero. -/
def traceExec (failing : List String → Bool) : GitExec (List (List String)) where
  gitExists := true
  run := fun args w =>
    ({ exitCode := if failing args then 1 else 0, stdout := "", stderr := "err" }, w ++ [args])

/-- The all-attempts trajectory: the result every patch would produce if
the loop never halted, each attempt starting from the world its
predecessor left behind. -/
def attemptResults {W : Type} (E : GitExec W) : List PatchInfo → W → List PatchResult
  | [], _ => []
  | p :: rest, w =>
    (applySinglePatch E p w).1 :: attemptResults E rest (applySinglePatch E p w).2

/-- The world after attempting every patch of the list in order. -/
def worldAfter {W : Type} (E : GitExec W) : List PatchInfo → W → W
  | [], w => w
  | p :: rest, w => worldAfter E rest (applySinglePatch E p w).2

/-- Forward semantics of a concrete two-patch scenario (see the
idempotence analysis below).  Trees are numbered 0..3.  Patch `1-a`
edits a region whose context exists in trees 0 and 2 (so it applies in
both); patch `2-b` rewrites patch `1-a`'s region back to its pre-image
while changing a second, distant region. -/
def cexF : String → Nat → Option Nat := fun p t =>
  if p = "patches/1-a.patch" then (if t = 0 then some 1 else if t = 2 then some 3 else none)
  else if p = "patches/2-b.patch" then (if t = 1 then some 2 else none)
  else none

/-- Reverse semantics of the same two patches: the exact inverse of
`cexF`, as `git apply --reverse` is of `git apply`. -/
def cexR : String → Nat → Option Nat := fun p t =>
  if p = "patches/1-a.patch" then (if t = 1 then some 0 else if t = 3 then some 2 else none)
  else if p = "patches/2-b.patch" then (if t = 2 then some 1 else none)
  else none

/-- Patches directory listing for the two-patch scenario. -/
def cexEntries : Option (List DirEntry) := some [⟨"1-a.patch", true⟩, ⟨"2-b.patch", true⟩]

/-- Selector for a git oracle in which the reverse apply of `p.patch`
exits non-zero (the patch is not present). -/
def c7fail : List String → Bool := fun args => args = ["apply", "--reverse", "p.patch"]

/-- Selector for a git oracle in which the forward validation of
`q.patch` exits non-zero. -/
def c7checkFail : List String → Bool := fun args => args = ["apply", "--check", "q.patch"]

/-- Oracle for the halt-on-failure scenario: every command succeeds
except the forward validation of the second patch. -/
def c1exec : GitExec (List (List String)) :=
  traceExec (fun args => args = ["apply", "--check", "patches/2-b.patch"])

/-- Three discovered patches; the second one will fail validation. -/
def c1entries : Option (List DirEntry) :=
  some [⟨"1-a.patch", true⟩, ⟨"2-b.patch", true⟩, ⟨"3-c.patch", true⟩]

/-- Listing with finite orders 1, 3, 7 (the specification's own
next-order example). -/
def c4finiteEntries : List DirEntry :=
  [⟨"001-a.patch", true⟩, ⟨"003-b.patch", true⟩, ⟨"007-c.patch", true⟩]

/-- Listing containing only an unprefixed patch file. -/
def c4unprefixedEntries : List DirEntry := [⟨"zz.patch", true⟩]

/-- Listing mixing a prefixed and an unprefixed patch file. -/
def c4mixedEntries : List DirEntry := [⟨"001-a.patch", true⟩, ⟨"zz.patch", true⟩]

/-- A small concrete environment: one tracked modification and one
untracked file `a.txt` containing `hi\n`. -/
def c6world : CliWorld where
  gitExists := true
  engineExists := true
  gitDirExists := true
  statusOut := " M b.txt\n?? a.txt\n"
  diffHeadOut := "tracked"
  lsFilesOut := "a.txt\n\n"
  readFile := fun p => if p = "engine/a.txt" then "hi\n" else ""
  patchesDirEntries := some []
  promptName := some "my changes"

/-- A clean workspace: `git status --porcelain` prints nothing. -/
def c9world : CliWorld where
  gitExists := true
  engineExists := true
  gitDirExists := true
  statusOut := ""
  diffHeadOut := ""
  lsFilesOut := ""
  readFile := fun _ => ""
  patchesDirEntries := some []
  promptName := some "name"

/-- A workspace whose only delta is the untracked file `foo.txt`. -/
def c8world : CliWorld where
  gitExists := true
  engineExists := true
  gitDirExists := true
  statusOut := "?? foo.txt\n"
  diffHeadOut := ""
  lsFilesOut := "foo.txt\n"
  readFile := fun _ => ""
  patchesDirEntries := some []
  promptName := none

/-! ### Helper lemmas: the stable sort -/

theorem insertLe_perm {α : Type} (le : α → α → Bool) (a : α) (l : List α) :
    (insertLe le a l).Perm (a :: l) := by
  induction l with
  | nil => simp [insertLe]
  | cons b bs ih =>
    simp only [insertLe]
    split
    · exact List.Perm.refl _
    · exact (ih.cons b).trans (List.Perm.swap a b bs)

theorem mem_insertLe {α : Type} (le : α → α → Bool) (a x : α) (l : List α) :
    x ∈ insertLe le a l ↔ x = a ∨ x ∈ l := by
  rw [(insertLe_perm le a l).mem_iff]
  simp

theorem pairwise_insertLe {α : Type} (le : α → α → Bool)
    (htot : ∀ x y, (le x y || le y x) = true)
    (htrans : ∀ x y z, le x y = true → le y z = true → le x z = true)
    (a : α) (l : List α) (hl : l.Pairwise (fun x y => le x y = true)) :
    (insertLe le a l).Pairwise (fun x y => le x y = true) := by
  induction l with
  | nil => simp [insertLe]
  | cons b bs ih =>
    rcases List.pairwise_cons.1 hl with ⟨hb, hbs⟩
    simp only [insertLe]
    split
    · rename_i hab
      refine List.pairwise_cons.2 ⟨?_, hl⟩
      intro x hx
      rcases List.mem_cons.1 hx with rfl | hx
      · exact hab
      · exact htrans a b x hab (hb x hx)
    · rename_i hab
      have hba : le b a = true := by
        have h2 := htot a b
        rcases Bool.or_eq_true_iff.1 h2 with h3 | h3
        · exact absurd h3 hab
        · exact h3
      refine List.pairwise_cons.2 ⟨?_, ih hbs⟩
      intro x hx
      rcases (mem_insertLe le a x bs).1 hx with rfl | hx
      · exact hba
      · exact hb x hx

theorem stableSortBy_perm {α : Type} (le : α → α → Bool) (l : List α) :
    (stableSortBy le l).Perm l := by
  induction l with
  | nil => simp [stableSortBy]
  | cons a rest ih =>
    exact (insertLe_perm le a (stableSortBy le rest)).trans (ih.cons a)

theorem pairwise_stableSortBy {α : Type} (le : α → α → Bool)
    (htot : ∀ x y, (le x y || le y x) = true)
    (htrans : ∀ x y z, le x y = true → le y z = true → le x z = true)
    (l : List α) :
    (stableSortBy le l).Pairwise (fun x y => le x y = true) := by
  induction l with
  | nil => simp [stableSortBy]
  | cons a rest ih => exact pairwise_insertLe le htot htrans a _ ih

theorem orderLe_total (o1 o2 : Option Nat) : (orderLe o1 o2 || orderLe o2 o1) = true := by
  cases o1 with
  | none => cases o2 <;> simp [orderLe]
  | some a =>
    cases o2 with
    | none => simp [orderLe]
    | some b =>
      simp only [orderLe, Bool.or_eq_true_iff, decide_eq_true_eq]
      omega

theorem orderLe_trans (o1 o2 o3 : Option Nat)
    (h1 : orderLe o1 o2 = true) (h2 : orderLe o2 o3 = true) : orderLe o1 o3 = true := by
  cases o1 with
  | none =>
    cases o2 with
    | none => cases o3 <;> simp_all [orderLe]
    | some b => simp [orderLe] at h1
  | some a =>
    cases o3 with
    | none => cases o2 <;> simp [orderLe]
    | some c =>
      cases o2 with
      | none => simp [orderLe] at h2
      | some b =>
        simp only [orderLe, decide_eq_true_eq] at h1 h2 ⊢
        omega

/-! ### Helper lemmas: line splitting -/

theorem jsSplitNl_ne_nil (l : List Char) : jsSplitNl l ≠ [] := by
  cases l with
  | nil => simp [jsSplitNl]
  | cons c rest =>
    simp only [jsSplitNl]
    split
    · simp
    · split <;> simp

theorem jsSplitNl_cons_length (c : Char) (rest : List Char) :
    (jsSplitNl (c :: rest)).length =
      (jsSplitNl rest).length + (if c = '\n' then 1 else 0) := by
  rcases h : jsSplitNl rest with _ | ⟨s, ss⟩
  · exact absurd h (jsSplitNl_ne_nil rest)
  · simp only [jsSplitNl, h]
    split <;> simp

theorem two_le_jsSplitNl_length (l : List Char) (h : l.getLast? = some '\n') :
    2 ≤ (jsSplitNl l).length := by
  induction l with
  | nil => simp at h
  | cons c rest ih =>
    rw [jsSplitNl_cons_length]
    cases rest with
    | nil =>
      simp at h
      simp [h, jsSplitNl]
    | cons d rest2 =>
      have h2 := ih (by rwa [List.getLast?_cons_cons] at h)
      split <;> omega

theorem jsLineCount_pos (content : String) : 1 ≤ jsLineCount content := by
  unfold jsLineCount
  split
  · rename_i h
    have h2 : 2 ≤ (jsSplitNl content.data).length :=
      two_le_jsSplitNl_length content.data (by simpa [hasTrailingNewline] using h)
    simp [jsSplitNlStr]
    omega
  · have h2 := List.length_pos.2 (jsSplitNl_ne_nil content.data)
    simp [jsSplitNlStr]
    omega

/-! ### Helper lemmas: the apply loop -/

theorem applySinglePatch_patch {W : Type} (E : GitExec W) (p : PatchInfo) (w : W) :
    (applySinglePatch E p w).1.patch = p := by
  unfold applySinglePatch
  rcases h : applyPatchIdempotent E p.path w with ⟨oe, w1⟩
  cases oe <;> simp

theorem applySinglePatch_error_isSome {W : Type} (E : GitExec W) (p : PatchInfo) (w : W)
    (h : (applySinglePatch E p w).1.success = false) :
    (applySinglePatch E p w).1.error.isSome = true := by
  unfold applySinglePatch at *
  rcases h2 : applyPatchIdempotent E p.path w with ⟨oe, w1⟩
  rw [h2] at h
  cases oe <;> simp_all

theorem attemptResults_length {W : Type} (E : GitExec W) :
    ∀ (ps : List PatchInfo) (w : W), (attemptResults E ps w).length = ps.length := by
  intro ps
  induction ps with
  | nil => intro w; simp [attemptResults]
  | cons p rest ih => intro w; simp [attemptResults, ih]

theorem attemptResults_map_patch {W : Type} (E : GitExec W) :
    ∀ (ps : List PatchInfo) (w : W), (attemptResults E ps w).map PatchResult.patch = ps := by
  intro ps
  induction ps with
  | nil => intro w; simp [attemptResults]
  | cons p rest ih => intro w; simp [attemptResults, ih, applySinglePatch_patch]

theorem attemptResults_error_isSome {W : Type} (E : GitExec W) :
    ∀ (ps : List PatchInfo) (w : W) (i : Nat) (r : PatchResult),
      (attemptResults E ps w)[i]? = some r → r.success = false → r.error.isSome = true := by
  intro ps
  induction ps with
  | nil => intro w i r h; simp [attemptResults] at h
  | cons p rest ih =>
    intro w i r h hs
    rcases i with _ | i
    · simp only [attemptResults, List.getElem?_cons_zero, Option.some.injEq] at h
      rw [← h] at hs ⊢
      exact applySinglePatch_error_isSome E p w hs
    · simp only [attemptResults, List.getElem?_cons_succ] at h
      exact ih _ i r h hs

theorem applyPatchesFrom_eq_take {W : Type} (E : GitExec W) :
    ∀ (ps : List PatchInfo) (w : W) (k : Nat), 1 ≤ k → k ≤ ps.length →
      (∀ i, i + 1 < k →
        ((attemptResults E ps w)[i]?).map PatchResult.success = some true) →
      ((attemptResults E ps w)[k - 1]?).map PatchResult.success = some false →
      applyPatchesFrom E ps w = ((attemptResults E ps w).take k, worldAfter E (ps.take k) w) := by
  intro ps
  induction ps with
  | nil =>
    intro w k hk1 hk2 _ _
    simp at hk2
    omega
  | cons p rest ih =>
    intro w k hk1 hk2 hsucc hfail
    rcases k with _ | k1
    · omega
    rcases k1 with _ | n
    · have hs : (applySinglePatch E p w).1.success = false := by
        have h0 := hfail
        simp only [attemptResults, Nat.sub_self, List.getElem?_cons_zero, Option.map_some] at h0
        exact Option.some.inj h0
      simp [applyPatchesFrom, hs, attemptResults, worldAfter]
    · have h0 : (applySinglePatch E p w).1.success = true := by
        have h1 := hsucc 0 (by omega)
        simp only [attemptResults, List.getElem?_cons_zero, Option.map_some] at h1
        exact Option.some.inj h1
      have ihh := ih (applySinglePatch E p w).2 (n + 1) (by omega)
        (by simpa using hk2)
        (by
          intro i hi
          have h2 := hsucc (i + 1) (by omega)
          simpa only [attemptResults, List.getElem?_cons_succ] using h2)
        (by
          have h3 := hfail
          simpa only [attemptResults, Nat.add_sub_cancel, List.getElem?_cons_succ] using h3)
      simp only [applyPatchesFrom, h0, if_true, ihh, attemptResults, worldAfter,
        List.take_succ_cons]

/-! ### Claim theorems -/

/-- Claim C1: for every patch set in which patches `1..(k-1)` (in
discovery order) apply successfully and patch `k` fails, `applyPatches`
returns exactly `k` results — the first `k-1` marked success, the
`k`-th marked failed with the error message attached — and attempts no
patch after the `k`-th (the returned results and final world are those
of the first `k` attempts alone, so for a trace-instrumented oracle no
later command is issued); for an empty patch set it returns zero
results.  The hypotheses state the failure pattern via the all-attempts
trajectory `attemptResults`, whose `i`-th entry is the outcome patch
`i+1` would produce after its predecessors ran. -/
theorem applyPatches_halts_at_first_failure :
    (∀ (W : Type) (E : GitExec W) (patchesDir : String) (fs : Option (List DirEntry)) (w : W),
      discoverPatches patchesDir fs = [] → applyPatches E patchesDir fs w = ([], w)) ∧
    (∀ (W : Type) (E : GitExec W) (patchesDir : String) (fs : Option (List DirEntry)) (w : W)
      (k : Nat), 1 ≤ k → k ≤ (discoverPatches patchesDir fs).length →
      (∀ i, i + 1 < k →
        ((attemptResults E (discoverPatches patchesDir fs) w)[i]?).map PatchResult.success =
          some true) →
      ((attemptResults E (discoverPatches patchesDir fs) w)[k - 1]?).map PatchResult.success =
        some false →
      applyPatches E patchesDir fs w =
        ((attemptResults E (discoverPatches patchesDir fs) w).take k,
          worldAfter E ((discoverPatches patchesDir fs).take k) w) ∧
      (applyPatches E patchesDir fs w).1.length = k ∧
      (∀ i, i + 1 < k →
        ((applyPatches E patchesDir fs w).1[i]?).map PatchResult.success = some true) ∧
      ((applyPatches E patchesDir fs w).1[k - 1]?).map PatchResult.success = some false ∧
      ((applyPatches E patchesDir fs w).1[k - 1]?).map (fun r => r.error.isSome) =
        some true ∧
      (∀ i, i < k →
        ((applyPatches E patchesDir fs w).1[i]?).map PatchResult.patch =
          (discoverPatches patchesDir fs)[i]?)) := by
  constructor
  · intro W E patchesDir fs w h
    simp [applyPatches, h, applyPatchesFrom]
  · intro W E patchesDir fs w k hk1 hk2 hsucc hfail
    have hmain := applyPatchesFrom_eq_take E (discoverPatches patchesDir fs) w k hk1 hk2 hsucc hfail
    have heq : applyPatches E patchesDir fs w =
        ((attemptResults E (discoverPatches patchesDir fs) w).take k,
          worldAfter E ((discoverPatches patchesDir fs).take k) w) := hmain
    refine ⟨heq, ?_, ?_, ?_, ?_, ?_⟩
    · rw [heq]
      simp [List.length_take, attemptResults_length]
      omega
    · intro i hi
      rw [heq]
      simp only [List.getElem?_take, if_pos (by omega : i < k)]
      exact hsucc i hi
    · rw [heq]
      simp only [List.getElem?_take, if_pos (by omega : k - 1 < k)]
      exact hfail
    · rw [heq]
      simp only [List.getElem?_take, if_pos (by omega : k - 1 < k)]
      rcases Option.map_eq_some'.1 hfail with ⟨r, hr, hrs⟩
      rw [hr]
      simp [attemptResults_error_isSome E _ w (k - 1) r hr hrs]
    · intro i hi
      rw [heq]
      simp only [List.getElem?_take, if_pos hi]
      have hmap := attemptResults_map_patch E (discoverPatches patchesDir fs) w
      calc ((attemptResults E (discoverPatches patchesDir fs) w)[i]?).map PatchResult.patch
          = ((attemptResults E (discoverPatches patchesDir fs) w).map PatchResult.patch)[i]? := by
            rw [List.getElem?_map]
        _ = (discoverPatches patchesDir fs)[i]? := by rw [hmap]

/-- Witness for C1: a concrete three-patch set whose second patch fails
validation; the engine returns exactly two results and never touches
the third patch, and an empty listing yields zero results. -/
theorem applyPatches_halts_at_first_failure_witness :
    applyPatches c1exec "patches" (some []) ([] : List (List String)) = ([], []) ∧
    (applyPatches c1exec "patches" c1entries ([] : List (List String))).1.length = 2 ∧
    ((applyPatches c1exec "patches" c1entries ([] : List (List String))).1[1]?).map
      PatchResult.success = some false := by
  refine ⟨applyPatches_halts_at_first_failure.1 _ c1exec "patches" (some []) [] (by decide),
    ?_, ?_⟩
  · have h := applyPatches_halts_at_first_failure.2 (List (List String)) c1exec "patches"
      c1entries [] 2 (by omega) (by decide)
      (fun i hi => by
        have hi0 : i = 0 := by omega
        rw [hi0]
        decide)
      (by decide)
    exact h.2.1
  · have h := applyPatches_halts_at_first_failure.2 (List (List String)) c1exec "patches"
      c1entries [] 2 (by omega) (by decide)
      (fun i hi => by
        have hi0 : i = 0 := by omega
        rw [hi0]
        decide)
      (by decide)
    exact h.2.2.2.1

/-- Claim C3: for every directory listing, `discoverPatches` returns
exactly the file entries with a `.patch` extension (as a permutation of
the filtered listing), sorted ascending by the integer parsed from a
leading `^(\d+)-` prefix, with every unprefixed file (order `Infinity`,
modelled `none`) placed after every prefixed file — for any enumeration
order of the input. -/
theorem discoverPatches_ordering (patchesDir : String) (entries : List DirEntry) :
    ((discoverPatches patchesDir (some entries)).map PatchInfo.filename).Perm
      ((entries.filter entryKept).map DirEntry.name) ∧
    (discoverPatches patchesDir (some entries)).Pairwise
      (fun a b => orderLe a.order b.order = true) ∧
    (discoverPatches patchesDir (some entries)).Pairwise
      (fun a b => a.order = none → b.order = none) := by
  have hperm := stableSortBy_perm (fun a b : PatchInfo => orderLe a.order b.order)
    ((entries.filter entryKept).map (fun e =>
      { path := joinPath patchesDir e.name
        filename := e.name
        order := extractOrder e.name : PatchInfo }))
  have hpair := pairwise_stableSortBy (fun a b : PatchInfo => orderLe a.order b.order)
    (fun x y => orderLe_total x.order y.order)
    (fun x y z => orderLe_trans x.order y.order z.order)
    ((entries.filter entryKept).map (fun e =>
      { path := joinPath patchesDir e.name
        filename := e.name
        order := extractOrder e.name : PatchInfo }))
  refine ⟨?_, hpair, ?_⟩
  · have h2 := hperm.map PatchInfo.filename
    simp only [discoverPatches]
    refine h2.trans ?_
    rw [List.map_map]
    exact List.Perm.refl _
  · exact hpair.imp (fun {a b} hab => by
      intro ha
      cases hb : b.order with
      | none => rfl
      | some m =>
        rw [ha, hb] at hab
        simp [orderLe] at hab)

/-- Counterexample to claim C4: the claim asserts the next patch number
is `max + 1` over the finite orders only, so that an unprefixed patch
file alongside prefixed ones does not change the result.  On the code,
`Math.max` over the orders is `Infinity` as soon as one unprefixed file
exists, and the whole expression collapses to `"001"`: adding
`zz.patch` next to `001-a.patch` changes the result from `"002"` to
`"001"`. -/
theorem getNextPatchNumber_infinity_collapse :
    getNextPatchNumber "patches" (some c4finiteEntries) = "008" ∧
    getNextPatchNumber "patches" (some c4mixedEntries) = "001" ∧
    getNextPatchNumber "patches" (some [⟨"001-a.patch", true⟩]) = "002" ∧
    (getNextPatchNumber "patches" (some c4mixedEntries) = "002" → False) := by
  decide

/-- Claim C4 (amended): `getNextPatchNumber` returns `"001"` when the
patches directory is empty or absent, and also whenever at least one
patch file is unprefixed (`Math.max` over the orders is then
`Infinity`); only when every patch file carries a numeric prefix does it
return `max(order) + 1`, zero-padded to 3 digits.  In particular an
all-unprefixed directory yields `"001"`, but — contrary to the original
claim — the presence of an unprefixed patch alongside prefixed ones
resets the result to `"001"` as well. -/
theorem getNextPatchNumber_behavior (patchesDir : String) (fs : Option (List DirEntry)) :
    (discoverPatches patchesDir fs = [] → getNextPatchNumber patchesDir fs = "001") ∧
    ((∃ p ∈ discoverPatches patchesDir fs, p.order = none) →
      getNextPatchNumber patchesDir fs = "001") ∧
    (discoverPatches patchesDir fs ≠ [] →
      (∀ p ∈ discoverPatches patchesDir fs, p.order ≠ none) →
      getNextPatchNumber patchesDir fs =
        padStart3 ((((discoverPatches patchesDir fs).map PatchInfo.order).foldl
          (fun a o => Nat.max a (o.getD 0)) 0) + 1)) := by
  refine ⟨?_, ?_, ?_⟩
  · intro h
    simp [getNextPatchNumber, h]
  · rintro ⟨p, hp, hord⟩
    have hne : (discoverPatches patchesDir fs).isEmpty = false := by
      cases hd : discoverPatches patchesDir fs with
      | nil => rw [hd] at hp; simp at hp
      | cons a l => simp
    have hany : ((discoverPatches patchesDir fs).map PatchInfo.order).any Option.isNone = true := by
      rw [List.any_eq_true]
      exact ⟨p.order, List.mem_map.2 ⟨p, hp, rfl⟩, by simp [hord]⟩
    simp only [getNextPatchNumber, hne, Bool.false_eq_true, if_false, jsMaxOrder, hany, if_true]
    decide
  · intro hne hall
    have hne2 : (discoverPatches patchesDir fs).isEmpty = false := by
      cases hd : discoverPatches patchesDir fs with
      | nil => exact absurd hd hne
      | cons a l => simp
    have hany : ((discoverPatches patchesDir fs).map PatchInfo.order).any Option.isNone = false := by
      rw [Bool.eq_false_iff]
      intro hc
      rcases List.any_eq_true.1 hc with ⟨o, ho, hno⟩
      rcases List.mem_map.1 ho with ⟨p, hp, rfl⟩
      exact hall p hp (Option.isNone_iff_eq_none.1 hno)
    simp [getNextPatchNumber, hne2, jsMaxOrder, hany]

/-- Witness for C4 (amended): with prefixed orders `{1, 3, 7}` the next
number is `"008"`; with only an unprefixed patch file it is `"001"`. -/
theorem getNextPatchNumber_behavior_witness :
    getNextPatchNumber "patches" (some c4finiteEntries) = padStart3 8 ∧
    getNextPatchNumber "patches" (some c4unprefixedEntries) = "001" := by
  constructor
  · have h := (getNextPatchNumber_behavior "patches" (some c4finiteEntries)).2.2
      (by decide) (by decide)
    rw [h]
    decide
  · exact (getNextPatchNumber_behavior "patches" (some c4unprefixedEntries)).2.1
      ⟨{ path := "patches/zz.patch", filename := "zz.patch", order := none }, by decide, rfl⟩

/-- Claim C5: for every untracked file, the synthesized new-file diff
is exactly the envelope the specification describes — `diff --git`
header, `new file mode`, `--- /dev/null`, `+++ b/<path>`, a single hunk
header `@@ -0,0 +1,N @@` with `N` the number of counted lines, every
content line prefixed `+`, and the no-newline marker present exactly
when the content does not end with a newline (the code's extra
`lineCount > 0` guard is redundant because the count is never zero).
In particular, for content `hello\n` the result is the exact five-line
diff with `+++ b/foo.txt`, `@@ -0,0 +1,1 @@`, `+hello`, and no
marker. -/
theorem generateNewFileDiff_matches_spec :
    (∀ filePath content : String,
      generateNewFileDiff filePath content = specNewFileDiff filePath content) ∧
    generateNewFileDiff "foo.txt" "hello\n" =
      "diff --git a/foo.txt b/foo.txt\nnew file mode 100644\n--- /dev/null\n+++ b/foo.txt\n@@ -0,0 +1,1 @@\n+hello" := by
  constructor
  · intro filePath content
    unfold generateNewFileDiff newFileDiffLines specNewFileDiff
    have hpos := jsLineCount_pos content
    cases h : hasTrailingNewline content <;>
      simp [h, Nat.lt_of_lt_of_le Nat.zero_lt_one hpos]
  · decide

/-- Claim C10: the synthesized diff for any content claims at least one
added line — the fifth emitted line is always `@@ -0,0 +1,N @@` with
`N = jsLineCount content ≥ 1`, so the zero-count header
`@@ -0,0 +1,0 @@` (which is `hunkHeader 0`) is never produced — and for
an empty file the whole diff consists of the envelope, the header
`@@ -0,0 +1,1 @@`, one empty `+` line, and the no-newline marker. -/
theorem newFileDiff_never_zero_count :
    (∀ filePath content : String,
      (newFileDiffLines filePath content)[4]? = some (hunkHeader (jsLineCount content)) ∧
      1 ≤ jsLineCount content) ∧
    hunkHeader 0 = "@@ -0,0 +1,0 @@" ∧
    hunkHeader 1 = "@@ -0,0 +1,1 @@" ∧
    generateNewFileDiff "f.txt" "" =
      "diff --git a/f.txt b/f.txt\nnew file mode 100644\n--- /dev/null\n+++ b/f.txt\n@@ -0,0 +1,1 @@\n+\n\\ No newline at end of file" := by
  refine ⟨?_, by decide, by decide, by decide⟩
  intro filePath content
  refine ⟨?_, jsLineCount_pos content⟩
  simp [newFileDiffLines]

/-! ### Idempotence analysis (C2)

`gitApplyExec F R` instantiates the git oracle with an abstract
atomic-apply semantics.  The two coherence properties below say that
`R` is the exact inverse of `F` — which holds of `git apply --reverse`
versus `git apply` — and are all the idempotence argument may assume. -/

theorem cexR_coherent : ∀ p t t2, cexR p t = some t2 → cexF p t2 = some t := by
  intro p t t2 h
  unfold cexR at h
  unfold cexF
  by_cases h1 : p = "patches/1-a.patch"
  · simp only [h1, if_true] at h ⊢
    by_cases ht1 : t = 1
    · rw [if_pos ht1] at h
      have ht2 : t2 = 0 := (Option.some.inj h).symm
      subst ht2
      subst ht1
      decide
    · rw [if_neg ht1] at h
      by_cases ht3 : t = 3
      · rw [if_pos ht3] at h
        have ht2 : t2 = 2 := (Option.some.inj h).symm
        subst ht2
        subst ht3
        decide
      · rw [if_neg ht3] at h
        exact absurd h (by simp)
  · by_cases h2 : p = "patches/2-b.patch"
    · simp only [h1, h2, if_true, if_false] at h ⊢
      by_cases ht2 : t = 2
      · rw [if_pos ht2] at h
        have ht : t2 = 1 := (Option.some.inj h).symm
        subst ht
        subst ht2
        decide
      · rw [if_neg ht2] at h
        exact absurd h (by simp)
    · simp [h1, h2] at h

theorem cexF_coherent : ∀ p t t2, cexF p t = some t2 → cexR p t2 = some t := by
  intro p t t2 h
  unfold cexF at h
  unfold cexR
  by_cases h1 : p = "patches/1-a.patch"
  · simp only [h1, if_true] at h ⊢
    by_cases ht0 : t = 0
    · rw [if_pos ht0] at h
      have ht2 : t2 = 1 := (Option.some.inj h).symm
      subst ht2
      subst ht0
      decide
    · rw [if_neg ht0] at h
      by_cases ht2c : t = 2
      · rw [if_pos ht2c] at h
        have ht2 : t2 = 3 := (Option.some.inj h).symm
        subst ht2
        subst ht2c
        decide
      · rw [if_neg ht2c] at h
        exact absurd h (by simp)
  · by_cases h2 : p = "patches/2-b.patch"
    · simp only [h1, h2, if_true, if_false] at h ⊢
      by_cases ht1 : t = 1
      · rw [if_pos ht1] at h
        have ht : t2 = 2 := (Option.some.inj h).symm
        subst ht
        subst ht1
        decide
      · rw [if_neg ht1] at h
        exact absurd h (by simp)
    · simp [h1, h2] at h

theorem applyPatchesFrom_all_reversible {T : Type} (F R : String → T → Option T)
    (hRF : ∀ p t t2, R p t = some t2 → F p t2 = some t) :
    ∀ (ps : List PatchInfo) (t : T),
      (∀ pi ∈ ps, (R pi.path t).isSome = true) →
      applyPatchesFrom (gitApplyExec F R) ps t =
        (ps.map (fun pi => { patch := pi, success := true, error := none }), t) := by
  intro ps
  induction ps with
  | nil => intro t _; simp [applyPatchesFrom]
  | cons p rest ih =>
    intro t hall
    have hp := hall p (List.mem_cons_self p rest)
    rcases hR : R p.path t with _ | v
    · rw [hR] at hp
      simp at hp
    · have hF : F p.path v = some t := hRF p.path t v hR
      have hstep : applySinglePatch (gitApplyExec F R) p t =
          ({ patch := p, success := true, error := none }, t) := by
        simp [applySinglePatch, applyPatchIdempotent, applyPatch, gitApplyExec, hR, hF]
      simp [applyPatchesFrom, hstep,
        ih t (fun pi hpi => hall pi (List.mem_cons_of_mem p hpi))]

/-- Counterexample to claim C2: byte-identical idempotence of a double
run fails for interfering patches.  `cexF`/`cexR` are a legitimate
atomic apply/reverse pair (`cexR_coherent`, `cexF_coherent` prove they
are exact inverses).  From baseline tree `0` the first run applies both
patches and ends at tree `2`; rerunning immediately re-applies patch
`1-a` (tree `2` is again in its forward domain because patch `2-b`
recreated its pre-image region), reaches tree `3`, and then fails on
patch `2-b` — the workspace after the second run differs from the
workspace after the first. -/
theorem applyPatches_not_idempotent :
    (applyPatches (gitApplyExec cexF cexR) "patches" cexEntries 0).2 = 2 ∧
    (applyPatches (gitApplyExec cexF cexR) "patches" cexEntries 2).2 = 3 ∧
    ((applyPatches (gitApplyExec cexF cexR) "patches" cexEntries 0).1.all
      PatchResult.success) = true ∧
    (2 : Nat) ≠ 3 := by
  decide

/-- Claim C2 (amended): rerunning the patch set is byte-idempotent
under the non-interference condition the reverse/forward dance actually
needs: if at the workspace state `t` reached by the first run every
patch's reverse still applies, then a second full run succeeds on every
patch and returns the workspace to exactly `t`; and applying a single
patch whose forward effect is already present (its pre-image `pre`
satisfies `F p pre = some t`) succeeds without changing any file
content.  Without the condition, a later patch that recreates an
earlier patch's pre-image makes the rerun re-apply that patch and then
fail, changing the tree (see the counterexample). -/
theorem applyPatches_rerun_fixed_point (T : Type) (F R : String → T → Option T)
    (hRF : ∀ p t t2, R p t = some t2 → F p t2 = some t)
    (hFR : ∀ p t t2, F p t = some t2 → R p t2 = some t) :
    (∀ (patchesDir : String) (fs : Option (List DirEntry)) (t : T),
      (∀ pi ∈ discoverPatches patchesDir fs, (R pi.path t).isSome = true) →
      applyPatches (gitApplyExec F R) patchesDir fs t =
        ((discoverPatches patchesDir fs).map
          (fun pi => { patch := pi, success := true, error := none }), t)) ∧
    (∀ (p : String) (pre t : T), F p pre = some t →
      applyPatchIdempotent (gitApplyExec F R) p t = (none, t)) := by
  constructor
  · intro patchesDir fs t hall
    exact applyPatchesFrom_all_reversible F R hRF (discoverPatches patchesDir fs) t hall
  · intro p pre t hF
    have hRrev : R p t = some pre := hFR p pre t hF
    simp [applyPatchIdempotent, applyPatch, gitApplyExec, hRrev, hF]

/-- Witness for C2 (amended): at tree `2` the reverse of patch `2-b`
applies, so rerunning the singleton set succeeds and leaves tree `2`
untouched; and patch `2-b`, already applied at tree `2`
(`cexF "patches/2-b.patch" 1 = some 2`), reapplies idempotently. -/
theorem applyPatches_rerun_fixed_point_witness :
    applyPatches (gitApplyExec cexF cexR) "patches" (some [⟨"2-b.patch", true⟩]) 2 =
      ([{ patch := { path := "patches/2-b.patch", filename := "2-b.patch", order := some 2 },
          success := true, error := none }], 2) ∧
    applyPatchIdempotent (gitApplyExec cexF cexR) "patches/2-b.patch" 2 = (none, 2) := by
  constructor
  · have h := (applyPatches_rerun_fixed_point Nat cexF cexR cexR_coherent cexF_coherent).1
      "patches" (some [⟨"2-b.patch", true⟩]) 2 (by decide)
    exact h.trans (by decide)
  · exact (applyPatches_rerun_fixed_point Nat cexF cexR cexR_coherent cexF_coherent).2
      "patches/2-b.patch" 1 2 (by decide)

/-- Counterexample to claim C7: the first step of the idempotent apply
is not a reverse-direction apply *check* gating a conditional reverse
apply — the engine issues the real `git apply --reverse` unconditionally
as its very first command.  Under a trace-logging oracle in which that
reverse apply exits non-zero (`c7fail`), the claim implies the reverse
apply would not be issued (its check would fail); yet the recorded
command trace is exactly reverse-apply, forward-check, forward-apply,
and no command combining `--check` with `--reverse` ever runs. -/
theorem applyPatchIdempotent_no_reverse_check :
    ((traceExec c7fail).run ["apply", "--reverse", "p.patch"] []).1.exitCode = 1 ∧
    applyPatchIdempotent (traceExec c7fail) "p.patch" [] =
      (none, [["apply", "--reverse", "p.patch"], ["apply", "--check", "p.patch"],
        ["apply", "p.patch"]]) ∧
    ((applyPatchIdempotent (traceExec c7fail) "p.patch" []).2.contains
      ["apply", "--reverse", "p.patch"]) = true ∧
    ((applyPatchIdempotent (traceExec c7fail) "p.patch" []).2.all
      (fun c => !(c.contains "--check" && c.contains "--reverse"))) = true := by
  decide

/-- Claim C7 (amended): the first step of the idempotent apply is an
unconditional best-effort reverse apply whose entire result — exit code
included — is ignored: the outcome of `applyPatchIdempotent` is
unchanged under any alteration of the reverse invocation's reported
result (only its effect on the world matters).  This is the only
swallowed non-zero exit in the engine: inside `applyPatch`, a non-zero
exit of the forward check or of the forward apply is surfaced as a
`PatchApplyError` carrying the invocation's stderr text, and success is
reported only when both exit zero. -/
theorem applyPatch_surfaces_every_other_failure :
    (∀ (W : Type) (E E2 : GitExec W) (p : String) (w : W),
      E.gitExists = true → E2.gitExists = true →
      (∀ args w2, args ≠ ["apply", "--reverse", p] → E.run args w2 = E2.run args w2) →
      (E.run ["apply", "--reverse", p] w).2 = (E2.run ["apply", "--reverse", p] w).2 →
      applyPatchIdempotent E p w = applyPatchIdempotent E2 p w) ∧
    (∀ (W : Type) (E : GitExec W) (p : String) (w : W), E.gitExists = true →
      ((E.run ["apply", "--check", p] w).1.exitCode ≠ 0 →
        applyPatch E p w =
          (some (ApplyErr.patchApply p (E.run ["apply", "--check", p] w).1.stderr),
            (E.run ["apply", "--check", p] w).2)) ∧
      ((E.run ["apply", "--check", p] w).1.exitCode = 0 →
        ((E.run ["apply", p] (E.run ["apply", "--check", p] w).2).1.exitCode ≠ 0 →
          applyPatch E p w =
            (some (ApplyErr.patchApply p
                (E.run ["apply", p] (E.run ["apply", "--check", p] w).2).1.stderr),
              (E.run ["apply", p] (E.run ["apply", "--check", p] w).2).2)) ∧
        ((E.run ["apply", p] (E.run ["apply", "--check", p] w).2).1.exitCode = 0 →
          applyPatch E p w =
            (none, (E.run ["apply", p] (E.run ["apply", "--check", p] w).2).2)))) := by
  constructor
  · intro W E E2 p w hg1 hg2 hagree hrev
    have hcheck : ∀ w2, E.run ["apply", "--check", p] w2 = E2.run ["apply", "--check", p] w2 :=
      fun w2 => hagree _ w2 (by simp)
    have happly : ∀ w2, E.run ["apply", p] w2 = E2.run ["apply", p] w2 :=
      fun w2 => hagree _ w2 (by simp)
    simp only [applyPatchIdempotent, hg1, hg2, if_true, hrev, applyPatch, hcheck, happly]
  · intro W E p w hg
    refine ⟨?_, fun hc0 => ⟨?_, ?_⟩⟩
    · intro hc
      simp only [applyPatch, hg, if_true]
      rw [if_pos hc]
    · intro ha
      have hc2 : ¬(E.run ["apply", "--check", p] w).1.exitCode ≠ 0 := by omega
      simp only [applyPatch, hg, if_true]
      rw [if_neg hc2, if_pos ha]
    · intro ha0
      have hc2 : ¬(E.run ["apply", "--check", p] w).1.exitCode ≠ 0 := by omega
      have ha2 : ¬(E.run ["apply", p] (E.run ["apply", "--check", p] w).2).1.exitCode ≠ 0 := by
        omega
      simp only [applyPatch, hg, if_true]
      rw [if_neg hc2, if_neg ha2]

/-- Witness for C7 (amended): flipping the reverse invocation's exit
code between two trace oracles does not change the outcome of the
idempotent apply, and a failing forward check surfaces a
`PatchApplyError` carrying the stderr text. -/
theorem applyPatch_surfaces_every_other_failure_witness :
    applyPatchIdempotent (traceExec c7fail) "p.patch" ([] : List (List String)) =
      applyPatchIdempotent (traceExec (fun _ => false)) "p.patch" [] ∧
    applyPatch (traceExec c7checkFail) "q.patch" ([] : List (List String)) =
      (some (ApplyErr.patchApply "q.patch" "err"), [["apply", "--check", "q.patch"]]) := by
  constructor
  · exact applyPatch_surfaces_every_other_failure.1 (List (List String))
      (traceExec c7fail) (traceExec (fun _ => false)) "p.patch" [] rfl rfl
      (fun args w2 hne => by simp [traceExec, c7fail, hne])
      (by decide)
  · exact (applyPatch_surfaces_every_other_failure.2 (List (List String))
      (traceExec c7checkFail) "q.patch" [] rfl).1 (by decide)

/-- Claim C6: the bulk diff equals the tracked diff against baseline
HEAD followed by one synthesized new-file diff per untracked file —
with the untracked files enumerated individually by parsing the
blank-line-filtered output of
`git ls-files --others --exclude-standard` (which expands files inside
untracked directories and excludes ignored files) — the fragments
joined by a single newline and every empty or whitespace-only fragment
omitted; the refinement target `specBulkDiff` is that composition
stated in the specification's words. -/
theorem getAllDiff_is_specBulkDiff (W : Type) (E : GitExec W) (fsRead : String → String)
    (repoDir : String) (w : W) (hgit : E.gitExists = true) :
    (getAllDiff E fsRead repoDir w).1 =
      some (specBulkDiff (E.run ["diff", "HEAD"] w).1.stdout
        ((jsSplitNlStr (E.run ["ls-files", "--others", "--exclude-standard"]
            (E.run ["diff", "HEAD"] w).2).1.stdout).filter (fun l => !(jsTrim l.data).isEmpty))
        (fun f => fsRead (joinPath repoDir f))) ∧
    (getAllDiff E fsRead repoDir w).2 =
      (E.run ["ls-files", "--others", "--exclude-standard"] (E.run ["diff", "HEAD"] w).2).2 := by
  simp [getAllDiff, getUntrackedFiles, specBulkDiff, hgit]

/-- Witness for C6: a concrete read-only workspace with tracked diff
`tracked` and one untracked file `a.txt` containing `hi\n` produces the
tracked fragment followed by the synthesized new-file diff. -/
theorem getAllDiff_is_specBulkDiff_witness :
    (getAllDiff (cliExec c6world) c6world.readFile "engine" ()).1 =
      some "tracked\ndiff --git a/a.txt b/a.txt\nnew file mode 100644\n--- /dev/null\n+++ b/a.txt\n@@ -0,0 +1,1 @@\n+hi" := by
  rw [(getAllDiff_is_specBulkDiff Unit (cliExec c6world) c6world.readFile "engine" () rfl).1]
  decide

/-- Claim C8: the specification requires status codes to map to their
semantic categories with untracked (porcelain `??`) reported as
untracked.  The code's own `STATUS_DESCRIPTIONS` table contains the
entries `'?' -> untracked` and `'!' -> ignored`, but `getStatusWithCodes`
delivers the untrimmed two-character code `"??"`, which misses the
single-character key, so an untracked file falls through to the generic
`"changed"` category — the table's untracked entry is unreachable. -/
theorem untracked_status_misreported :
    parsePorcelain "?? foo.txt\n" = [{ status := "??", file := "foo.txt" }] ∧
    (getStatusWithCodes (cliExec c8world) ()).1 =
      some [{ status := "??", file := "foo.txt" }] ∧
    getStatusDescription "??" = "changed" ∧
    getStatusDescription "?" = "untracked" ∧
    getStatusDescription "M" = "modified" ∧
    ("changed" = "untracked" → False) := by
  decide

/-- Claim C9: on a workspace with no delta (empty porcelain status) or
whose computed bulk diff is empty or whitespace-only, `export-all`
finishes with the explicit nothing-to-export outcome: no error is
raised and no patch file is written. -/
theorem exportAll_nothing_to_export (engineDir patchesDir : String) (nameOpt : Option String)
    (w : CliWorld) (h1 : w.engineExists = true) (h2 : w.gitDirExists = true)
    (h3 : w.gitExists = true)
    (h4 : (jsTrim w.statusOut.data).isEmpty = true ∨
      (jsTrim (cliAllDiff engineDir w).data).isEmpty = true) :
    exportAllCommand engineDir patchesDir nameOpt w = ExportOutcome.nothingToExport := by
  have hchanges : hasChanges (cliExec w) () =
      (some (!(jsTrim w.statusOut.data).isEmpty), ()) := by
    simp [hasChanges, cliExec, h3]
  cases hstat : (jsTrim w.statusOut.data).isEmpty with
  | true =>
    simp [exportAllCommand, h1, h2, hchanges, hstat]
  | false =>
    have hdiff : (jsTrim (cliAllDiff engineDir w).data).isEmpty = true := by
      rcases h4 with h4 | h4
      · rw [h4] at hstat
        cases hstat
      · exact h4
    simp [exportAllCommand, h1, h2, hchanges, hstat, hdiff]

/-- Witness for C9: a workspace whose porcelain status output is empty
exports nothing. -/
theorem exportAll_nothing_to_export_witness :
    exportAllCommand "engine" "patches" none c9world = ExportOutcome.nothingToExport :=
  exportAll_nothing_to_export "engine" "patches" none c9world rfl rfl rfl
    (Or.inl (by decide))

end Forge
